import Mathlib

/-!
Verification of the cable-design validator core (src/app.py).

The embedding models, from the source:
  - the JSON value universe and the behaviour of json.loads on candidate
    blocks (a fuel-indexed recursive-descent parser over lists of
    characters; Python floats are modelled as exact rationals),
  - `extract_json` : fence stripping, the non-greedy brace scan of
    re.findall r"\x7b[\s\S]*?\x7d", and the last-to-first acceptance loop,
  - `fallback_extract` : the deterministic pattern extractor (each regex of
    the source is modelled by a dedicated leftmost-match scanner whose
    backtracking behaviour provably coincides with the Python pattern on
    all inputs, because the literals that follow a numeric group never
    start with a digit or a dot),
  - `apply_iec_rules` : both over the typed FieldSet of the data model and
    over raw JSON dictionaries with Python dynamic-typing errors
    (KeyError / TypeError) made explicit in an Except monad,
  - `validate_cable_design` : the fusion pipeline, taking the raw oracle
    completion as an input string (the oracle itself is external).

Modelling conventions: str.lower is modelled as ASCII lowercasing, the
regex classes \d and \s as their ASCII parts; numbers are exact rationals.
None of the claims below depends on the corners where these differ from
CPython unicode behaviour.
-/

namespace CableSpec

/-- JSON values, as produced by json.loads on the oracle completion. -/
inductive Json where
  | null : Json
  | bool : Bool → Json
  | num : Rat → Json
  | str : String → Json
  | arr : List Json → Json
  | obj : List (String × Json) → Json

/-- Python dict lookup on a parsed object: with duplicate keys json.loads
keeps the last occurrence, so lookup scans from the end. -/
def jget (kvs : List (String × Json)) (k : String) : Option Json :=
  (kvs.reverse.find? (fun p => p.1 == k)).map (fun p => p.2)

/-- Python truthiness of a JSON value. -/
def truthy : Json → Bool
  | Json.null => false
  | Json.bool b => b
  | Json.num q => q != 0
  | Json.str s => s ≠ ""
  | Json.arr l => !l.isEmpty
  | Json.obj kvs => !kvs.isEmpty

/-- Membership test "k in parsed" for a parsed dict.  extract_json only
ever returns objects (lemma extract_json_isObj below), so the dict case is
the only live one. -/
def hasKeyB (j : Json) (k : String) : Bool :=
  match j with
  | Json.obj kvs => (jget kvs k).isSome
  | _ => false

/-- Python dict .get with a default. -/
def jgetD (j : Json) (k : String) (d : Json) : Json :=
  match j with
  | Json.obj kvs => (jget kvs k).getD d
  | _ => d

/-- Comparison of a JSON value against a Python string literal, as in
fields["standard"] != "IEC 60502-1" (values of other types never compare
equal to a str). -/
def jStrEq (j : Json) (s : String) : Bool :=
  match j with
  | Json.str t => t == s
  | _ => false

mutual

/-- Number of object nodes in a JSON value (used to show that a block with
a single closing brace can hold no nested object). -/
def objCount : Json → Nat
  | Json.obj kvs => 1 + objCountKvs kvs
  | Json.arr xs => objCountArr xs
  | _ => 0

def objCountArr : List Json → Nat
  | [] => 0
  | x :: xs => objCount x + objCountArr xs

def objCountKvs : List (String × Json) → Nat
  | [] => 0
  | p :: kvs => objCount p.2 + objCountKvs kvs

end

/-! ### Character-level helpers -/

/-- JSON whitespace accepted by json.loads between tokens. -/
def isJsonWs (c : Char) : Bool :=
  c = ' ' || c = '\t' || c = '\n' || c = '\r'

def skipWs (cs : List Char) : List Char := cs.dropWhile isJsonWs

/-- Regex \s, restricted to its ASCII part. -/
def isPyWs (c : Char) : Bool :=
  c = ' ' || c = '\t' || c = '\n' || c = '\r' || c = Char.ofNat 11 || c = Char.ofNat 12

def skipPyWs (cs : List Char) : List Char := cs.dropWhile isPyWs

/-- str.lower, restricted to its ASCII part (the source only matches ASCII
keywords plus the unicode characters ², ᵢ, which lower() leaves fixed). -/
def lowerChar (c : Char) : Char :=
  if 'A' ≤ c ∧ c ≤ 'Z' then Char.ofNat (c.toNat + 32) else c

def pyLower (cs : List Char) : List Char := cs.map lowerChar

/-- str.replace pat "" , scanning left to right over non-overlapping
occurrences.  Fuel is the input length plus one; every step consumes at
least one character, so the fuel never runs out on the initial call. -/
def replaceDropF (pat : List Char) : Nat → List Char → List Char
  | 0, cs => cs
  | _ + 1, [] => []
  | n + 1, c :: cs =>
    if !pat.isEmpty && pat.isPrefixOf (c :: cs) then
      replaceDropF pat n (List.drop pat.length (c :: cs))
    else
      c :: replaceDropF pat n cs

def replaceDrop (cs pat : List Char) : List Char :=
  replaceDropF pat (cs.length + 1) cs

/-- text.replace("```json", "").replace("```", "") from extract_json. -/
def stripFences (cs : List Char) : List Char :=
  replaceDrop (replaceDrop cs "```json".toList) "```".toList

/-! ### The brace scan of re.findall r"\x7b[\s\S]*?\x7d"

A lazy, depth-unaware match runs from a literal opening brace to the
nearest closing brace; matches are non-overlapping, scanning left to
right.  Each block therefore contains exactly one closing brace, its last
character. -/

/-- Split at the first closing brace: returns the characters before it and
the rest after it. -/
def splitAtClose : List Char → Option (List Char × List Char)
  | [] => none
  | c :: cs =>
    if c = '\x7d' then some ([], cs)
    else (splitAtClose cs).map (fun p => (c :: p.1, p.2))

def findBlocksF : Nat → List Char → List (List Char)
  | 0, _ => []
  | _ + 1, [] => []
  | n + 1, c :: cs =>
    if c = '\x7b' then
      match splitAtClose cs with
      | some (mid, rest) => ('\x7b' :: mid ++ ['\x7d']) :: findBlocksF n rest
      | none => []
    else findBlocksF n cs

def findBlocks (cs : List Char) : List (List Char) := findBlocksF (cs.length + 1) cs

/-! ### A model of json.loads

Recursive descent with a fuel argument; the fuel passed by jsonLoads
dominates three times the input length, which bounds the call depth since
at most every third recursive call can avoid consuming a character. -/

def hexVal (c : Char) : Option Nat :=
  if '0' ≤ c ∧ c ≤ '9' then some (c.toNat - 48)
  else if 'a' ≤ c ∧ c ≤ 'f' then some (c.toNat - 87)
  else if 'A' ≤ c ∧ c ≤ 'F' then some (c.toNat - 55)
  else none

def escChar (c : Char) : Option Char :=
  if c = '"' then some '"'
  else if c = '\\' then some '\\'
  else if c = '/' then some '/'
  else if c = 'b' then some (Char.ofNat 8)
  else if c = 'f' then some (Char.ofNat 12)
  else if c = 'n' then some '\n'
  else if c = 'r' then some '\r'
  else if c = 't' then some '\t'
  else none

/-- Four hex digits of a \uXXXX escape. -/
def takeHex4 : List Char → Option (Nat × List Char)
  | a :: b :: c :: d :: rest =>
    match hexVal a with
    | none => none
    | some x =>
      match hexVal b with
      | none => none
      | some y =>
        match hexVal c with
        | none => none
        | some z =>
          match hexVal d with
          | none => none
          | some w => some ((((x * 16 + y) * 16 + z) * 16 + w), rest)
  | _ => none

/-- Parse the body of a JSON string literal (the opening quote is already
consumed); json.loads rejects raw control characters and unknown escapes.
Lone-surrogate \u escapes are mapped through Char.ofNat. -/
def parseStrChars : Nat → List Char → Option (List Char × List Char)
  | 0, _ => none
  | _ + 1, [] => none
  | n + 1, c :: rest =>
    if c = '"' then some ([], rest)
    else if c = '\\' then
      match rest with
      | [] => none
      | e :: rest2 =>
        if e = 'u' then
          match takeHex4 rest2 with
          | some (code, rest3) =>
            (parseStrChars n rest3).map (fun p => (Char.ofNat code :: p.1, p.2))
          | none => none
        else
          match escChar e with
          | some ch => (parseStrChars n rest2).map (fun p => (ch :: p.1, p.2))
          | none => none
    else if c.toNat < 32 then none
    else (parseStrChars n rest).map (fun p => (c :: p.1, p.2))

def digitsVal (ds : List Char) : Nat :=
  ds.foldl (fun n c => 10 * n + (c.toNat - 48)) 0

/-- JSON integer part: a single 0, or a nonzero digit followed by digits.
(After a leading 0 any further digit is left in the remainder, where the
surrounding parser fails, exactly as json.loads does on "01".) -/
def parseIntDigits : List Char → Option (List Char × List Char)
  | [] => none
  | c :: cs =>
    if c = '0' then some ([c], cs)
    else if c.isDigit then some (c :: cs.takeWhile Char.isDigit, cs.dropWhile Char.isDigit)
    else none

/-- Optional fraction part: returns (value, number of digits, rest). -/
def parseFrac : List Char → Nat × Nat × List Char
  | '.' :: c :: cs =>
    if c.isDigit then
      let ds := c :: cs.takeWhile Char.isDigit
      (digitsVal ds, ds.length, cs.dropWhile Char.isDigit)
    else (0, 0, '.' :: c :: cs)
  | cs => (0, 0, cs)

/-- An exact decimal rational n / 10^s.  All rationals the program handles
are finite decimals; building them through mkRat keeps every definition
evaluable by the kernel. -/
def decimal (n : Int) (s : Nat) : Rat := mkRat n (10 ^ s)

/-- Subtraction through mkRat, definitionally evaluable. -/
def qSub (a b : Rat) : Rat :=
  mkRat (a.num * (b.den : Int) - b.num * (a.den : Int)) (a.den * b.den)

/-- A signed exponent value. -/
def expVal (sgn : Bool) (ds : List Char) : Int :=
  if sgn then -(digitsVal ds : Int) else (digitsVal ds : Int)

/-- Digits of an exponent, after sign handling; if there are none, nothing
of the original input is consumed (the remainder then makes the
surrounding parse fail, as in json.loads). -/
def parseExpDigits (sgn : Bool) (orig rest2 : List Char) : Int × List Char :=
  match rest2 with
  | c :: _ =>
    if c.isDigit then
      (expVal sgn (rest2.takeWhile Char.isDigit), rest2.dropWhile Char.isDigit)
    else (0, orig)
  | [] => (0, orig)

/-- Optional exponent part: returns (signed exponent, rest). -/
def parseExp (cs : List Char) : Int × List Char :=
  match cs with
  | e :: rest =>
    if e = 'e' || e = 'E' then
      match rest with
      | '+' :: r => parseExpDigits false cs r
      | '-' :: r => parseExpDigits true cs r
      | r => parseExpDigits false cs r
    else (0, cs)
  | [] => (0, [])

/-- Optional leading minus of a JSON number. -/
def numSign (cs : List Char) : Bool × List Char :=
  match cs with
  | '-' :: r => (true, r)
  | _ => (false, cs)

/-- The rational value of a JSON number from its integer digits and the
fraction and exponent parts read from cs2. -/
def numVal (ids cs2 : List Char) : Rat :=
  let fl := (parseFrac cs2).2.1
  let fv := (parseFrac cs2).1
  let ex := (parseExp (parseFrac cs2).2.2).1
  let mantNum : Int := (digitsVal ids : Int) * 10 ^ fl + (fv : Int)
  if 0 ≤ ex then mkRat (mantNum * 10 ^ ex.toNat) (10 ^ fl)
  else mkRat mantNum (10 ^ fl * 10 ^ (-ex).toNat)

/-- A JSON number, as an exact rational (Python parses to binary floats;
no claim below depends on that rounding). -/
def parseNumber (cs : List Char) : Option (Rat × List Char) :=
  match parseIntDigits (numSign cs).2 with
  | none => none
  | some (ids, cs2) =>
    some ((if (numSign cs).1 then -(numVal ids cs2) else numVal ids cs2),
          (parseExp (parseFrac cs2).2.2).2)

/-- Parser state: a value, the inside of an object or array, or the member
and element loops with their accumulators. -/
inductive PIn where
  | val : List Char → PIn
  | objBody : List Char → PIn
  | members : List Char → List (String × Json) → PIn
  | arrBody : List Char → PIn
  | elems : List Char → List Json → PIn

/-- The input characters a parser state works on. -/
def PIn.cs : PIn → List Char
  | PIn.val cs => cs
  | PIn.objBody cs => cs
  | PIn.members cs _ => cs
  | PIn.arrBody cs => cs
  | PIn.elems cs _ => cs

def parseStep : Nat → PIn → Option (Json × List Char)
  | 0, _ => none
  | n + 1, PIn.val cs =>
    match skipWs cs with
    | '\x7b' :: rest => parseStep n (PIn.objBody rest)
    | '[' :: rest => parseStep n (PIn.arrBody rest)
    | '"' :: rest =>
      (parseStrChars (rest.length + 1) rest).map
        (fun p => (Json.str (String.mk p.1), p.2))
    | 't' :: 'r' :: 'u' :: 'e' :: r => some (Json.bool true, r)
    | 'f' :: 'a' :: 'l' :: 's' :: 'e' :: r => some (Json.bool false, r)
    | 'n' :: 'u' :: 'l' :: 'l' :: r => some (Json.null, r)
    | rest => (parseNumber rest).map (fun p => (Json.num p.1, p.2))
  | n + 1, PIn.objBody cs =>
    match skipWs cs with
    | '\x7d' :: rest => some (Json.obj [], rest)
    | rest => parseStep n (PIn.members rest [])
  | n + 1, PIn.members cs acc =>
    match cs with
    | '"' :: rest =>
      match parseStrChars (rest.length + 1) rest with
      | none => none
      | some (k, r1) =>
        match skipWs r1 with
        | ':' :: r2 =>
          match parseStep n (PIn.val r2) with
          | none => none
          | some (v, r3) =>
            match skipWs r3 with
            | ',' :: r4 => parseStep n (PIn.members (skipWs r4) (acc ++ [(String.mk k, v)]))
            | '\x7d' :: r4 => some (Json.obj (acc ++ [(String.mk k, v)]), r4)
            | _ => none
        | _ => none
    | _ => none
  | n + 1, PIn.arrBody cs =>
    match skipWs cs with
    | ']' :: rest => some (Json.arr [], rest)
    | rest => parseStep n (PIn.elems rest [])
  | n + 1, PIn.elems cs acc =>
    match parseStep n (PIn.val cs) with
    | none => none
    | some (v, r1) =>
      match skipWs r1 with
      | ',' :: r2 => parseStep n (PIn.elems r2 (acc ++ [v]))
      | ']' :: r2 => some (Json.arr (acc ++ [v]), r2)
      | _ => none

/-- json.loads on a candidate block: one JSON value, possibly surrounded by
whitespace, and nothing else. -/
def jsonLoads (cs : List Char) : Option Json :=
  match parseStep (3 * cs.length + 8) (PIn.val cs) with
  | some (v, rest) => if (skipWs rest).isEmpty then some v else none
  | none => none

/-! ### extract_json -/

/-- The acceptance loop of extract_json: try blocks in the given order,
return the first that parses and carries a "fields" or "validation" key. -/
def first_parsed : List (List Char) → Option Json
  | [] => none
  | b :: bs =>
    match jsonLoads b with
    | some p =>
      if hasKeyB p "fields" || hasKeyB p "validation" then some p
      else first_parsed bs
    | none => first_parsed bs

/-- extract_json from the source: strip fences, collect the lazy brace
blocks, try them from the last backward. -/
def extract_json (text : String) : Option Json :=
  first_parsed (findBlocks (stripFences text.toList)).reverse

/-! ### fallback_extract

Each regex of the source is modelled by a scanner with Python re.search
semantics: the leftmost position at which the whole pattern matches wins.
The numeric group r"\d+\.?\d*" is matched by maximal munch, which agrees
with the backtracking engine because every literal that can follow the
group starts with a character that is neither a digit nor a dot, so no
shorter candidate can ever succeed where the maximal one fails. -/

/-- Maximal munch of r"\d+\.?\d*", converted by float(): digits, an
optional dot, optional further digits. -/
def lexNum (cs : List Char) : Option (Rat × List Char) :=
  match cs with
  | c :: _ =>
    if c.isDigit then
      let i := cs.takeWhile Char.isDigit
      let r1 := cs.dropWhile Char.isDigit
      match r1 with
      | '.' :: r2 =>
        let f := r2.takeWhile Char.isDigit
        some (mkRat ((digitsVal i : Int) * 10 ^ f.length + (digitsVal f : Int)) (10 ^ f.length),
              r2.dropWhile Char.isDigit)
      | _ => some ((digitsVal i : Int) , r1)
    else none
  | [] => none

/-- Literal match at the current position, returning the rest. -/
def litAt (lit : List Char) (cs : List Char) : Option (List Char) :=
  if lit.isPrefixOf cs then some (cs.drop lit.length) else none

/-- r"(\d+\.?\d*)\s*/\s*(\d+\.?\d*)\s*kv" at the current position. -/
def matchDualAt (cs : List Char) : Option (Rat × Rat) := do
  let (x, r1) ← lexNum cs
  let r3 ← litAt ['/'] (skipPyWs r1)
  let (y, r5) ← lexNum (skipPyWs r3)
  let _ ← litAt ['k', 'v'] (skipPyWs r5)
  pure (x, y)

def searchDual : List Char → Option (Rat × Rat)
  | [] => none
  | c :: cs =>
    match matchDualAt (c :: cs) with
    | some p => some p
    | none => searchDual cs

/-- r"(\d+\.?\d*)\s*kv" at the current position. -/
def matchBareKvAt (cs : List Char) : Option Rat := do
  let (x, r1) ← lexNum cs
  let _ ← litAt ['k', 'v'] (skipPyWs r1)
  pure x

def searchBareKv : List Char → Option Rat
  | [] => none
  | c :: cs =>
    match matchBareKvAt (c :: cs) with
    | some x => some x
    | none => searchBareKv cs

/-- r"(\d+\.?\d*)\s*(sqmm|mm2|mm²)" at the current position; the unit
alternatives are tried in the written order. -/
def matchCsaAt (cs : List Char) : Option Rat := do
  let (x, r1) ← lexNum cs
  let r2 := skipPyWs r1
  match litAt "sqmm".toList r2 with
  | some _ => pure x
  | none =>
    match litAt "mm2".toList r2 with
    | some _ => pure x
    | none =>
      match litAt "mm²".toList r2 with
      | some _ => pure x
      | none => none

def searchCsa : List Char → Option Rat
  | [] => none
  | c :: cs =>
    match matchCsaAt (c :: cs) with
    | some x => some x
    | none => searchCsa cs

/-- The keyword alternation r"(?:insulation|tᵢ|ti)" at the current
position (alternatives in written order; they are mutually exclusive). -/
def kwAt (cs : List Char) : Option (List Char) :=
  match litAt "insulation".toList cs with
  | some r => some r
  | none =>
    match litAt "tᵢ".toList cs with
    | some r => some r
    | none => litAt "ti".toList cs

/-- r"(\d+\.?\d*)\s*mm" at the current position (value only). -/
def numMmAt (cs : List Char) : Option Rat := do
  let (q, r1) ← lexNum cs
  let _ ← litAt ['m', 'm'] (skipPyWs r1)
  pure q

/-- The lazy tail r".*?(\d+\.?\d*)\s*mm" after a keyword: the dot does not
cross a newline (the source compiles without DOTALL), while the \s* inside
the group part may. -/
def windowScan : List Char → Option Rat
  | [] => none
  | c :: cs =>
    match numMmAt (c :: cs) with
    | some q => some q
    | none => if c = '\n' then none else windowScan cs

/-- re.search of r"(?:insulation|tᵢ|ti).*?(\d+\.?\d*)\s*mm": the engine
advances the overall start one character at a time, so a later keyword
occurrence can match after an earlier one failed. -/
def searchThick : List Char → Option Rat
  | [] => none
  | c :: cs =>
    match kwAt (c :: cs) with
    | some rest =>
      match windowScan rest with
      | some q => some q
      | none => searchThick cs
    | none => searchThick cs

/-- r"(\d+\.?\d*)\s*mm" at the current position, returning value and the
rest after the full match (for the non-overlapping findall). -/
def numMmRestAt (cs : List Char) : Option (Rat × List Char) := do
  let (q, r1) ← lexNum cs
  let r2 ← litAt ['m', 'm'] (skipPyWs r1)
  pure (q, r2)

def findallMmF : Nat → List Char → List Rat
  | 0, _ => []
  | _ + 1, [] => []
  | n + 1, c :: cs =>
    match numMmRestAt (c :: cs) with
    | some (q, rest) => q :: findallMmF n rest
    | none => findallMmF n cs

/-- re.findall of r"(\d+\.?\d*)\s*mm": non-overlapping matches, scanning
left to right, continuing after each full match. -/
def findallMm (cs : List Char) : List Rat := findallMmF (cs.length + 1) cs

/-- re.search of r"class\s*(\d+)"; the captured digit run is interpolated
verbatim into "Class \x7b...\x7d". -/
def matchClassAt (cs : List Char) : Option String :=
  match litAt "class".toList cs with
  | none => none
  | some r1 =>
    let r2 := skipPyWs r1
    match r2 with
    | c :: _ =>
      if c.isDigit then some ("Class " ++ String.mk (r2.takeWhile Char.isDigit))
      else none
    | [] => none

def searchClass : List Char → Option String
  | [] => none
  | c :: cs =>
    match matchClassAt (c :: cs) with
    | some s => some s
    | none => searchClass cs

/-- Substring containment, as Python's "pat in t". -/
def containsSub (pat : List Char) : List Char → Bool
  | [] => pat.isPrefixOf ([] : List Char)
  | c :: cs => pat.isPrefixOf (c :: cs) || containsSub pat cs

/-- The FieldSet of the data model: seven nullable attributes. -/
structure FieldSet where
  standard : Option String
  voltage_kv : Option Rat
  conductor_material : Option String
  conductor_class : Option String
  csa_mm2 : Option Rat
  insulation_material : Option String
  insulation_thickness_mm : Option Rat

/-- fallback_extract from the source: lower-case the input, then apply the
ordered extraction rules; a failed rule leaves the field null. -/
def fallback_extract (text : String) : FieldSet :=
  let t := pyLower text.toList
  { standard :=
      if containsSub "iec 60502-1".toList t || containsSub "iec60502-1".toList t then
        some "IEC 60502-1"
      else if containsSub "iec 60502".toList t then
        some "IEC 60502 (ambiguous - specify part)"
      else none
    voltage_kv :=
      match searchDual t with
      | some p => some p.2
      | none => searchBareKv t
    csa_mm2 := searchCsa t
    insulation_thickness_mm :=
      match searchThick t with
      | some q => some q
      | none =>
        match findallMm t with
        | [q] => some q
        | _ => none
    conductor_material :=
      if containsSub "copper".toList t || containsSub " cu".toList t ||
          containsSub "cu,".toList t then some "Cu"
      else if containsSub "aluminium".toList t || containsSub "aluminum".toList t ||
          containsSub " al".toList t || containsSub "al,".toList t then some "Al"
      else none
    conductor_class := searchClass t
    insulation_material :=
      if containsSub "pvc".toList t then some "PVC"
      else if containsSub "xlpe".toList t || containsSub "cross-linked".toList t then
        some "XLPE"
      else if containsSub "epr".toList t then some "EPR"
      else none }

/-! ### apply_iec_rules

One Option-valued function per rule; the source appends at most one
finding per rule, in rule order.  The engine is modelled twice: over the
typed FieldSet of the data model, and over raw JSON dicts with the dynamic
failures of the Python subscript and comparison operators made explicit. -/

def finding (field status expected : String) (provided : Json) (comment : String) : Json :=
  Json.obj [("field", Json.str field), ("status", Json.str status),
    ("expected", Json.str expected), ("provided", provided), ("comment", Json.str comment)]

/-- The "status" entry of a finding, as compared by v["status"] == ... -/
def statusStr (j : Json) : String :=
  match j with
  | Json.obj kvs =>
    match jget kvs "status" with
    | some (Json.str s) => s
    | _ => ""
  | _ => ""

/-- The "field" entry of a finding. -/
def fieldStr (j : Json) : String :=
  match j with
  | Json.obj kvs =>
    match jget kvs "field" with
    | some (Json.str s) => s
    | _ => ""
  | _ => ""

/-- Decimal rendering standing in for the Python float repr used in the
f-strings of the source; no claim inspects these strings. -/
def ratStr (q : Rat) : String :=
  if q.den = 1 then toString q.num ++ ".0"
  else toString q.num ++ "/" ++ toString q.den

def pyShow (v : Json) : String :=
  match v with
  | Json.num q => ratStr q
  | Json.bool b => if b then "True" else "False"
  | _ => ""

def fail_standard (provided : Json) : Json :=
  finding "standard" "FAIL" "IEC 60502-1" provided
    "IEC 60502-1 must be explicitly specified for LV cable designs."

def warn_voltage : Json :=
  finding "voltage_kv" "WARN" "≤ 1 kV" (Json.str "Not specified")
    "Voltage rating must be specified. IEC 60502-1 covers up to 1 kV."

def fail_voltage (provided : String) : Json :=
  finding "voltage_kv" "FAIL" "≤ 1 kV" (Json.str provided)
    "IEC 60502-1 is valid only for low voltage (≤ 1 kV). Use IEC 60502-2 for medium voltage."

def warn_material : Json :=
  finding "conductor_material" "WARN" "Cu or Al" (Json.str "Not specified")
    "Conductor material (Cu or Al) must be specified."

def warn_class : Json :=
  finding "conductor_class" "WARN" "Class 1, 2, 5, or 6 per IEC 60228" (Json.str "Not specified")
    "Conductor class must conform to IEC 60228 (Class 1=solid, 2=stranded, 5/6=flexible)."

def warn_csa : Json :=
  finding "csa_mm2" "WARN" "Standard nominal size" (Json.str "Not specified")
    "Cross-sectional area (CSA) in mm² must be specified."

def warn_insulation : Json :=
  finding "insulation_material" "WARN" "PVC, XLPE, or EPR" (Json.str "Not specified")
    "Insulation material must be specified (typically PVC or XLPE for LV)."

def warn_thickness : Json :=
  finding "insulation_thickness_mm" "WARN" "Per IEC 60502-1 Table 4" (Json.str "Not specified")
    "Insulation thickness must be specified and meet IEC 60502-1 minimum requirements."

def fail_thickness (provided : String) : Json :=
  finding "insulation_thickness_mm" "FAIL" "≥ 0.6 mm (typical minimum)" (Json.str provided)
    "Insulation thickness appears too low for IEC 60502-1 compliance."

def optStrJson : Option String → Json
  | none => Json.null
  | some s => Json.str s

def optNumJson : Option Rat → Json
  | none => Json.null
  | some q => Json.num q

/-- Rule 1: the standard must be exactly "IEC 60502-1". -/
def rule_standard (fs : FieldSet) : Option Json :=
  if fs.standard = some "IEC 60502-1" then none
  else some (fail_standard (optStrJson fs.standard))

/-- Rule 2: voltage missing warns; above 1 kV fails. -/
def rule_voltage (fs : FieldSet) : Option Json :=
  match fs.voltage_kv with
  | none => some warn_voltage
  | some v => if (1 : Rat) < v then some (fail_voltage (ratStr v ++ " kV")) else none

/-- Rule 3. -/
def rule_conductor_material (fs : FieldSet) : Option Json :=
  match fs.conductor_material with
  | none => some warn_material
  | some _ => none

/-- Rule 4. -/
def rule_conductor_class (fs : FieldSet) : Option Json :=
  match fs.conductor_class with
  | none => some warn_class
  | some _ => none

/-- Rule 5. -/
def rule_csa (fs : FieldSet) : Option Json :=
  match fs.csa_mm2 with
  | none => some warn_csa
  | some _ => none

/-- Rule 6. -/
def rule_insulation_material (fs : FieldSet) : Option Json :=
  match fs.insulation_material with
  | none => some warn_insulation
  | some _ => none

/-- Rule 7: thickness missing warns; below 0.6 mm fails. -/
def rule_insulation_thickness (fs : FieldSet) : Option Json :=
  match fs.insulation_thickness_mm with
  | none => some warn_thickness
  | some v => if v < decimal 6 1 then some (fail_thickness (ratStr v ++ " mm")) else none

/-- Overall status from the findings: FAIL before WARN before PASS. -/
def overallOf (validation : List Json) : String :=
  if validation.any (fun j => statusStr j == "FAIL") then "FAIL"
  else if validation.any (fun j => statusStr j == "WARN") then "WARN"
  else "PASS"

/-- One step of the confidence loop: minus 0.35 per FAIL, 0.15 per WARN. -/
def confStep (c : Rat) (j : Json) : Rat :=
  if statusStr j == "FAIL" then qSub c (decimal 35 2)
  else if statusStr j == "WARN" then qSub c (decimal 15 2)
  else c

/-- Round to the nearest integer, ties to even; the floor is taken with
Int.ediv, which is floor division for the positive denominators of Rat. -/
def roundHalfEven (x : Rat) : Int :=
  let n : Int := x.num.ediv (x.den : Int)
  let r : Rat := qSub x (mkRat n 1)
  if r < mkRat 1 2 then n
  else if mkRat 1 2 < r then n + 1
  else if n % 2 = 0 then n else n + 1

/-- Python round(x, 2).  In this program the argument is always an exact
multiple of 1/20, so the tie branch is never live and binary floating
point error cannot move the result. -/
def round2 (q : Rat) : Rat :=
  mkRat (roundHalfEven (mkRat (q.num * 100) q.den)) 100

/-- round(max(confidence, 0.0), 2) over the confidence loop. -/
def confOf (validation : List Json) : Rat :=
  round2 (max (validation.foldl confStep 1) 0)

structure RuleResult where
  validation : List Json
  overall : String
  confidence : Rat

/-- apply_iec_rules over the typed FieldSet of the data model. -/
def apply_iec_rules (fs : FieldSet) : RuleResult :=
  let validation :=
    (rule_standard fs).toList ++ (rule_voltage fs).toList ++
    (rule_conductor_material fs).toList ++ (rule_conductor_class fs).toList ++
    (rule_csa fs).toList ++ (rule_insulation_material fs).toList ++
    (rule_insulation_thickness fs).toList
  { validation := validation, overall := overallOf validation, confidence := confOf validation }

/-! The same rules over a raw JSON dict, with Python dynamic typing:
a missing key raises KeyError, subscripting a non-dict or comparing a
non-number against a float raises TypeError; bool compares as 0 or 1. -/

def jrule_standard (kvs : List (String × Json)) : Except String (Option Json) :=
  match jget kvs "standard" with
  | none => Except.error "KeyError: standard"
  | some v => Except.ok (if jStrEq v "IEC 60502-1" then none else some (fail_standard v))

def jrule_voltage (kvs : List (String × Json)) : Except String (Option Json) :=
  match jget kvs "voltage_kv" with
  | none => Except.error "KeyError: voltage_kv"
  | some Json.null => Except.ok (some warn_voltage)
  | some (Json.num q) =>
    Except.ok (if (1 : Rat) < q then some (fail_voltage (ratStr q ++ " kV")) else none)
  | some (Json.bool b) =>
    Except.ok (if (1 : Rat) < (if b then (1 : Rat) else 0) then
      some (fail_voltage (pyShow (Json.bool b) ++ " kV")) else none)
  | some _ => Except.error "TypeError: voltage_kv"

def jrule_conductor_material (kvs : List (String × Json)) : Except String (Option Json) :=
  match jget kvs "conductor_material" with
  | none => Except.error "KeyError: conductor_material"
  | some Json.null => Except.ok (some warn_material)
  | some _ => Except.ok none

def jrule_conductor_class (kvs : List (String × Json)) : Except String (Option Json) :=
  match jget kvs "conductor_class" with
  | none => Except.error "KeyError: conductor_class"
  | some Json.null => Except.ok (some warn_class)
  | some _ => Except.ok none

def jrule_csa (kvs : List (String × Json)) : Except String (Option Json) :=
  match jget kvs "csa_mm2" with
  | none => Except.error "KeyError: csa_mm2"
  | some Json.null => Except.ok (some warn_csa)
  | some _ => Except.ok none

def jrule_insulation_material (kvs : List (String × Json)) : Except String (Option Json) :=
  match jget kvs "insulation_material" with
  | none => Except.error "KeyError: insulation_material"
  | some Json.null => Except.ok (some warn_insulation)
  | some _ => Except.ok none

def jrule_insulation_thickness (kvs : List (String × Json)) : Except String (Option Json) :=
  match jget kvs "insulation_thickness_mm" with
  | none => Except.error "KeyError: insulation_thickness_mm"
  | some Json.null => Except.ok (some warn_thickness)
  | some (Json.num q) =>
    Except.ok (if q < decimal 6 1 then some (fail_thickness (ratStr q ++ " mm")) else none)
  | some (Json.bool b) =>
    Except.ok (if (if b then (1 : Rat) else 0) < decimal 6 1 then
      some (fail_thickness (pyShow (Json.bool b) ++ " mm")) else none)
  | some _ => Except.error "TypeError: insulation_thickness_mm"

def rules_dyn (kvs : List (String × Json)) : Except String (List Json) := do
  let r1 ← jrule_standard kvs
  let r2 ← jrule_voltage kvs
  let r3 ← jrule_conductor_material kvs
  let r4 ← jrule_conductor_class kvs
  let r5 ← jrule_csa kvs
  let r6 ← jrule_insulation_material kvs
  let r7 ← jrule_insulation_thickness kvs
  pure (r1.toList ++ r2.toList ++ r3.toList ++ r4.toList ++ r5.toList ++ r6.toList ++ r7.toList)

/-- apply_iec_rules over whatever value the oracle put under "fields". -/
def apply_iec_rules_dyn (fields : Json) : Except String RuleResult :=
  match fields with
  | Json.obj kvs =>
    match rules_dyn kvs with
    | Except.error e => Except.error e
    | Except.ok validation =>
      Except.ok { validation := validation, overall := overallOf validation,
                  confidence := confOf validation }
  | _ => Except.error "TypeError: fields is not a dict"

/-! ### validate_cable_design

The oracle call itself is external; the pipeline is modelled as a function
of the user input and of the raw completion text the oracle returned. -/

structure ValidationResult where
  fields : Json
  validation : Json
  overall_status : String
  ai_reasoning : Json
  confidence_overall : Rat
  ai_confidence : Rat
  rule_confidence : Rat
  confidence_justification : String

def FieldSet.toJson (fs : FieldSet) : Json :=
  Json.obj [("standard", optStrJson fs.standard),
    ("voltage_kv", optNumJson fs.voltage_kv),
    ("conductor_material", optStrJson fs.conductor_material),
    ("conductor_class", optStrJson fs.conductor_class),
    ("csa_mm2", optNumJson fs.csa_mm2),
    ("insulation_material", optStrJson fs.insulation_material),
    ("insulation_thickness_mm", optNumJson fs.insulation_thickness_mm)]

/-- ai_confidence.get("overall", 0.5) followed by min against a float:
a non-dict has no .get (AttributeError), a non-numeric value does not
compare under min (TypeError), bool counts as 0 or 1. -/
def confGet : Json → Except String Rat
  | Json.obj kvs =>
    match jget kvs "overall" with
    | none => Except.ok (decimal 5 1)
    | some (Json.num q) => Except.ok q
    | some (Json.bool b) => Except.ok (if b then 1 else 0)
    | some _ => Except.error "TypeError: min on non-number"
  | _ => Except.error "AttributeError: get on non-dict"

/-- The fallback branch of step 3: fields from fallback_extract, empty
validation, fixed reasoning and confidence. -/
def fallback_quad (user_input : String) : Json × Json × Json × Json :=
  (FieldSet.toJson (fallback_extract user_input),
   Json.arr [],
   Json.str "Fallback extraction used (AI response could not be parsed)",
   Json.obj [("overall", Json.num (decimal 5 1)), ("justification", Json.str "Pattern matching only")])

/-- Steps 4-6 of validate_cable_design over the chosen
(fields, ai_validation, ai_reasoning, ai_confidence): run the rule engine
as safety net, display the oracle findings when they are non-empty, fuse
the confidences by minimum. -/
def fuse (quad : Json × Json × Json × Json) : Except String ValidationResult :=
  match apply_iec_rules_dyn quad.1 with
  | Except.error e => Except.error e
  | Except.ok rr =>
    let combined : Json := if truthy quad.2.1 then quad.2.1 else Json.arr rr.validation
    match confGet quad.2.2.2 with
    | Except.error e => Except.error e
    | Except.ok aiOv =>
      Except.ok
        { fields := quad.1
          validation := combined
          overall_status := rr.overall
          ai_reasoning := quad.2.2.1
          confidence_overall := min aiOv rr.confidence
          ai_confidence := aiOv
          rule_confidence := rr.confidence
          confidence_justification :=
            "Combined AI extraction with deterministic IEC rule validation" }

/-- The branch of step 3: oracle fields when the parsed object is truthy
and carries a "fields" entry, fallback extraction otherwise. -/
def chooseQuad (user_input raw_response : String) : Json × Json × Json × Json :=
  match extract_json raw_response with
  | some p =>
    if truthy p && hasKeyB p "fields" then
      (jgetD p "fields" Json.null,
       jgetD p "validation" (Json.arr []),
       jgetD p "reasoning" (Json.str "AI reasoning not provided"),
       jgetD p "confidence" (Json.obj []))
    else fallback_quad user_input
  | none => fallback_quad user_input

def validate_cable_design (user_input raw_response : String) : Except String ValidationResult :=
  fuse (chooseQuad user_input raw_response)

/-! ### Derived definitions used by the claim statements -/

/-- The acceptance test of one candidate block, used to characterise the
scanning loop of extract_json. -/
def qualif (b : List Char) : Option Json :=
  match jsonLoads b with
  | some p => if hasKeyB p "fields" || hasKeyB p "validation" then some p else none
  | none => none

/-- Any element of a JSON array of findings carries the given status. -/
def anyStatusB (v : Json) (s : String) : Bool :=
  match v with
  | Json.arr l => l.any (fun j => statusStr j == s)
  | _ => false

/-- The FieldSet invariant of the data model, read off a returned
ValidationResult: overall status FAIL before WARN before PASS over the
displayed findings. -/
def statusInvariant (res : ValidationResult) : Prop :=
  (res.overall_status = "FAIL" ↔ anyStatusB res.validation "FAIL" = true) ∧
  (res.overall_status = "WARN" ↔
    (anyStatusB res.validation "FAIL" = false ∧ anyStatusB res.validation "WARN" = true)) ∧
  (res.overall_status = "PASS" ↔
    (anyStatusB res.validation "FAIL" = false ∧ anyStatusB res.validation "WARN" = false))

/-- The FieldSet with every attribute absent. -/
def all_null_fieldset : FieldSet := ⟨none, none, none, none, none, none, none⟩

def default_result : ValidationResult := ⟨Json.null, Json.null, "", Json.null, 0, 0, 0, ""⟩

def okOr (e : Except String ValidationResult) (d : ValidationResult) : ValidationResult :=
  match e with
  | Except.ok x => x
  | Except.error _ => d

/-- A concrete pipeline run used by the witness of C2 (no structured block
in the completion, so the fallback path is taken). -/
def c2_run : ValidationResult :=
  okOr (validate_cable_design "10 mm² Cu cable" "the oracle rambled with no structure") default_result

/-- A concrete pipeline run used by the witness of C3. -/
def c3_run : ValidationResult :=
  okOr (validate_cable_design "IEC 60502-1, 0.6/1 kV, Cu" "plain text answer") default_result

/-! ### Lemmas about the rule engine -/

theorem statusStr_finding (f s e c : String) (p : Json) : statusStr (finding f s e p c) = s := rfl

theorem fieldStr_finding (f s e c : String) (p : Json) : fieldStr (finding f s e p c) = f := rfl

theorem overallOf_spec (v : List Json) :
    (overallOf v = "FAIL" ↔ v.any (fun j => statusStr j == "FAIL") = true) ∧
    (overallOf v = "WARN" ↔
      (v.any (fun j => statusStr j == "FAIL") = false ∧
        v.any (fun j => statusStr j == "WARN") = true)) ∧
    (overallOf v = "PASS" ↔
      (v.any (fun j => statusStr j == "FAIL") = false ∧
        v.any (fun j => statusStr j == "WARN") = false)) := by
  unfold overallOf
  cases hF : v.any (fun j => statusStr j == "FAIL") <;>
    cases hW : v.any (fun j => statusStr j == "WARN") <;> simp

/-- C1: for every FieldSet, the overall status of the rule engine is FAIL
exactly when a finding is FAIL, WARN exactly when none is FAIL and one is
WARN, and PASS exactly when neither status occurs (strict precedence). -/
theorem claim_C1 (fs : FieldSet) :
    ((apply_iec_rules fs).overall = "FAIL" ↔
      (apply_iec_rules fs).validation.any (fun j => statusStr j == "FAIL") = true) ∧
    ((apply_iec_rules fs).overall = "WARN" ↔
      ((apply_iec_rules fs).validation.any (fun j => statusStr j == "FAIL") = false ∧
        (apply_iec_rules fs).validation.any (fun j => statusStr j == "WARN") = true)) ∧
    ((apply_iec_rules fs).overall = "PASS" ↔
      ((apply_iec_rules fs).validation.any (fun j => statusStr j == "FAIL") = false ∧
        (apply_iec_rules fs).validation.any (fun j => statusStr j == "WARN") = false)) :=
  overallOf_spec _

/-- Shape of the zero-or-one finding a single rule can contribute. -/
theorem rule_shape (name : String) (ro : Option Json)
    (hst : ∀ j, ro = some j → (statusStr j = "FAIL" ∨ statusStr j = "WARN") ∧ fieldStr j = name) :
    (ro.toList.all (fun j => statusStr j == "FAIL" || statusStr j == "WARN")) = true ∧
    (ro.toList.map fieldStr).Sublist [name] := by
  cases ro with
  | none => simp
  | some j =>
    obtain ⟨hs, hf⟩ := hst j rfl
    refine ⟨?_, ?_⟩
    · rcases hs with h | h <;> simp [h]
    · simp [hf]

theorem rule_standard_spec (fs : FieldSet) :
    ∀ j, rule_standard fs = some j →
      (statusStr j = "FAIL" ∨ statusStr j = "WARN") ∧ fieldStr j = "standard" := by
  intro j h
  unfold rule_standard at h
  split at h
  · exact absurd h (by simp)
  · injection h with h
    subst h
    exact ⟨Or.inl rfl, rfl⟩

theorem rule_voltage_spec (fs : FieldSet) :
    ∀ j, rule_voltage fs = some j →
      (statusStr j = "FAIL" ∨ statusStr j = "WARN") ∧ fieldStr j = "voltage_kv" := by
  intro j h
  unfold rule_voltage at h
  split at h
  · injection h with h
    subst h
    exact ⟨Or.inr rfl, rfl⟩
  · split at h
    · injection h with h
      subst h
      exact ⟨Or.inl rfl, rfl⟩
    · exact absurd h (by simp)

theorem rule_conductor_material_spec (fs : FieldSet) :
    ∀ j, rule_conductor_material fs = some j →
      (statusStr j = "FAIL" ∨ statusStr j = "WARN") ∧ fieldStr j = "conductor_material" := by
  intro j h
  unfold rule_conductor_material at h
  split at h
  · injection h with h
    subst h
    exact ⟨Or.inr rfl, rfl⟩
  · exact absurd h (by simp)

theorem rule_conductor_class_spec (fs : FieldSet) :
    ∀ j, rule_conductor_class fs = some j →
      (statusStr j = "FAIL" ∨ statusStr j = "WARN") ∧ fieldStr j = "conductor_class" := by
  intro j h
  unfold rule_conductor_class at h
  split at h
  · injection h with h
    subst h
    exact ⟨Or.inr rfl, rfl⟩
  · exact absurd h (by simp)

theorem rule_csa_spec (fs : FieldSet) :
    ∀ j, rule_csa fs = some j →
      (statusStr j = "FAIL" ∨ statusStr j = "WARN") ∧ fieldStr j = "csa_mm2" := by
  intro j h
  unfold rule_csa at h
  split at h
  · injection h with h
    subst h
    exact ⟨Or.inr rfl, rfl⟩
  · exact absurd h (by simp)

theorem rule_insulation_material_spec (fs : FieldSet) :
    ∀ j, rule_insulation_material fs = some j →
      (statusStr j = "FAIL" ∨ statusStr j = "WARN") ∧ fieldStr j = "insulation_material" := by
  intro j h
  unfold rule_insulation_material at h
  split at h
  · injection h with h
    subst h
    exact ⟨Or.inr rfl, rfl⟩
  · exact absurd h (by simp)

theorem rule_insulation_thickness_spec (fs : FieldSet) :
    ∀ j, rule_insulation_thickness fs = some j →
      (statusStr j = "FAIL" ∨ statusStr j = "WARN") ∧ fieldStr j = "insulation_thickness_mm" := by
  intro j h
  unfold rule_insulation_thickness at h
  split at h
  · injection h with h
    subst h
    exact ⟨Or.inr rfl, rfl⟩
  · split at h
    · injection h with h
      subst h
      exact ⟨Or.inl rfl, rfl⟩
    · exact absurd h (by simp)

/-- Every finding of the typed rule engine is a FAIL or a WARN, and the
finding fields follow the fixed rule order. -/
theorem apply_iec_rules_shape (fs : FieldSet) :
    ((apply_iec_rules fs).validation.all
        (fun j => statusStr j == "FAIL" || statusStr j == "WARN")) = true ∧
    ((apply_iec_rules fs).validation.map fieldStr).Sublist
      ["standard", "voltage_kv", "conductor_material", "conductor_class",
       "csa_mm2", "insulation_material", "insulation_thickness_mm"] := by
  obtain ⟨a1, s1⟩ := rule_shape _ _ (rule_standard_spec fs)
  obtain ⟨a2, s2⟩ := rule_shape _ _ (rule_voltage_spec fs)
  obtain ⟨a3, s3⟩ := rule_shape _ _ (rule_conductor_material_spec fs)
  obtain ⟨a4, s4⟩ := rule_shape _ _ (rule_conductor_class_spec fs)
  obtain ⟨a5, s5⟩ := rule_shape _ _ (rule_csa_spec fs)
  obtain ⟨a6, s6⟩ := rule_shape _ _ (rule_insulation_material_spec fs)
  obtain ⟨a7, s7⟩ := rule_shape _ _ (rule_insulation_thickness_spec fs)
  constructor
  · show (((rule_standard fs).toList ++ (rule_voltage fs).toList ++
        (rule_conductor_material fs).toList ++ (rule_conductor_class fs).toList ++
        (rule_csa fs).toList ++ (rule_insulation_material fs).toList ++
        (rule_insulation_thickness fs).toList).all
          (fun j => statusStr j == "FAIL" || statusStr j == "WARN")) = true
    simp only [List.all_append, Bool.and_eq_true]
    exact ⟨⟨⟨⟨⟨⟨a1, a2⟩, a3⟩, a4⟩, a5⟩, a6⟩, a7⟩
  · show (((rule_standard fs).toList ++ (rule_voltage fs).toList ++
        (rule_conductor_material fs).toList ++ (rule_conductor_class fs).toList ++
        (rule_csa fs).toList ++ (rule_insulation_material fs).toList ++
        (rule_insulation_thickness fs).toList).map fieldStr).Sublist
      ["standard", "voltage_kv", "conductor_material", "conductor_class",
       "csa_mm2", "insulation_material", "insulation_thickness_mm"]
    simp only [List.map_append, List.append_assoc]
    exact s1.append (s2.append (s3.append (s4.append (s5.append (s6.append s7)))))

/-- A list of findings that are all FAIL or WARN yields PASS exactly when
it is empty. -/
theorem overallOf_pass_iff (v : List Json)
    (hall : v.all (fun j => statusStr j == "FAIL" || statusStr j == "WARN") = true) :
    (overallOf v = "PASS" ↔ v = []) := by
  cases v with
  | nil => simp [overallOf]
  | cons j l =>
    simp only [List.all_cons, Bool.and_eq_true] at hall
    obtain ⟨hj, _⟩ := hall
    constructor
    · intro h
      exfalso
      simp only [Bool.or_eq_true] at hj
      rcases hj with h1 | h1
      · simp [overallOf, List.any_cons, h1] at h
      · by_cases hF : (j :: l).any (fun x => statusStr x == "FAIL") = true
        · simp [overallOf, hF] at h
        · rw [Bool.not_eq_true] at hF
          simp [overallOf, hF, List.any_cons, h1] at h
    · intro h
      simp at h

/-- C10: every finding of the rule engine is FAIL or WARN, each of the
seven rules contributes at most one finding (the finding fields form a
sublist of the seven rule fields in order), and the overall status is
PASS exactly when the findings list is empty. -/
theorem claim_C10 (fs : FieldSet) :
    ((apply_iec_rules fs).validation.all
        (fun j => statusStr j == "FAIL" || statusStr j == "WARN")) = true ∧
    ((apply_iec_rules fs).validation.map fieldStr).Sublist
      ["standard", "voltage_kv", "conductor_material", "conductor_class",
       "csa_mm2", "insulation_material", "insulation_thickness_mm"] ∧
    ((apply_iec_rules fs).overall = "PASS" ↔ (apply_iec_rules fs).validation = []) := by
  obtain ⟨hall, hsub⟩ := apply_iec_rules_shape fs
  exact ⟨hall, hsub, overallOf_pass_iff _ hall⟩

/-! ### Lemmas about the confidence computation -/

theorem qSub_eq (a b : Rat) : qSub a b = a - b := by
  rw [qSub, Rat.sub_def, ← Rat.normalize_eq_mkRat]

theorem decimal_eq (n : Int) (s : Nat) : decimal n s = (n : Rat) / (10 : Rat) ^ s := by
  rw [decimal, Rat.mkRat_eq_div]
  norm_num

theorem decimal_35 : decimal 35 2 = (0.35 : Rat) := by
  rw [decimal_eq]
  norm_num

theorem decimal_15 : decimal 15 2 = (0.15 : Rat) := by
  rw [decimal_eq]
  norm_num

/-- The confidence loop in closed form: 1 minus 0.35 per FAIL finding and
0.15 per WARN finding. -/
theorem foldl_confStep (l : List Json) (c : Rat) :
    l.foldl confStep c =
      c - 0.35 * ((l.filter (fun j => statusStr j == "FAIL")).length : Rat)
        - 0.15 * ((l.filter (fun j => statusStr j == "WARN")).length : Rat) := by
  induction l generalizing c with
  | nil => simp
  | cons j l ih =>
    rw [List.foldl_cons, ih]
    by_cases hF : statusStr j = "FAIL"
    · have hbF : (statusStr j == "FAIL") = true := by simp [hF]
      have hbW : ¬((statusStr j == "WARN") = true) := by simp [hF]
      unfold confStep
      rw [if_pos hbF, qSub_eq, decimal_35, List.filter_cons, List.filter_cons,
        if_pos hbF, if_neg hbW, List.length_cons]
      push_cast
      ring
    · by_cases hW : statusStr j = "WARN"
      · have hbF : ¬((statusStr j == "FAIL") = true) := by simp [hW]
        have hbW : (statusStr j == "WARN") = true := by simp [hW]
        unfold confStep
        rw [if_neg hbF, if_pos hbW, qSub_eq, decimal_15, List.filter_cons, List.filter_cons,
          if_neg hbF, if_pos hbW, List.length_cons]
        push_cast
        ring
      · have hbF : ¬((statusStr j == "FAIL") = true) := by simp [hF]
        have hbW : ¬((statusStr j == "WARN") = true) := by simp [hW]
        unfold confStep
        rw [if_neg hbF, if_neg hbW, List.filter_cons, List.filter_cons, if_neg hbF, if_neg hbW]

/-- Floor bracketing for the Int.ediv used by roundHalfEven. -/
theorem ediv_bracket (x : Rat) :
    ((x.num.ediv (x.den : Int) : Int) : Rat) ≤ x ∧
      x < ((x.num.ediv (x.den : Int) : Int) : Rat) + 1 := by
  have hD : (0 : Int) < (x.den : Int) := by exact_mod_cast x.den_pos
  have hdecomp : (x.den : Int) * (x.num.ediv (x.den : Int)) + x.num.emod (x.den : Int) = x.num :=
    Int.ediv_add_emod x.num (x.den : Int)
  have hr0 : (0 : Int) ≤ x.num.emod (x.den : Int) := Int.emod_nonneg _ (by omega)
  have hrlt : x.num.emod (x.den : Int) < (x.den : Int) := Int.emod_lt_of_pos _ hD
  have hdenR : (0 : Rat) < (x.den : Rat) := by exact_mod_cast hD
  constructor
  · have h2 : (x.den : Int) * (x.num.ediv (x.den : Int)) ≤ x.num := by linarith
    have h3 : ((x.num.ediv (x.den : Int) : Int) : Rat) ≤ (x.num : Rat) / (x.den : Rat) := by
      rw [le_div_iff₀ hdenR]
      calc ((x.num.ediv (x.den : Int) : Int) : Rat) * (x.den : Rat)
          = (((x.den : Int) * (x.num.ediv (x.den : Int)) : Int) : Rat) := by push_cast; ring
        _ ≤ (x.num : Rat) := by exact_mod_cast h2
    rwa [Rat.num_div_den] at h3
  · have h2 : x.num < (x.den : Int) * (x.num.ediv (x.den : Int)) + (x.den : Int) := by linarith
    have h3 : (x.num : Rat) / (x.den : Rat) < ((x.num.ediv (x.den : Int) : Int) : Rat) + 1 := by
      rw [div_lt_iff₀ hdenR]
      calc (x.num : Rat)
          < (((x.den : Int) * (x.num.ediv (x.den : Int)) + (x.den : Int) : Int) : Rat) := by
            exact_mod_cast h2
        _ = (((x.num.ediv (x.den : Int) : Int) : Rat) + 1) * (x.den : Rat) := by push_cast; ring
    rwa [Rat.num_div_den] at h3

theorem roundHalfEven_bounds (x : Rat) (h0 : 0 ≤ x) (h100 : x ≤ 100) :
    0 ≤ roundHalfEven x ∧ roundHalfEven x ≤ 100 := by
  obtain ⟨hlo, hhi⟩ := ediv_bracket x
  have hhalf : mkRat 1 2 = (1 : Rat) / 2 := by
    rw [Rat.mkRat_eq_div]
    norm_num
  simp only [roundHalfEven, qSub_eq, Rat.mkRat_one, hhalf]
  have hn0 : 0 ≤ x.num.ediv (x.den : Int) :=
    Int.ediv_nonneg (Rat.num_nonneg.mpr h0) (by positivity)
  have hn100 : x.num.ediv (x.den : Int) ≤ 100 := by
    have : ((x.num.ediv (x.den : Int) : Int) : Rat) ≤ 100 := le_trans hlo h100
    exact_mod_cast this
  split_ifs with h1 h2 h3
  · exact ⟨hn0, hn100⟩
  · -- r above one half forces the floor to be at most 99
    push_neg at h1
    refine ⟨by omega, ?_⟩
    have hlt : ((x.num.ediv (x.den : Int) : Int) : Rat) < 100 := by linarith
    have : x.num.ediv (x.den : Int) < 100 := by exact_mod_cast hlt
    omega
  · exact ⟨hn0, hn100⟩
  · push_neg at h1
    refine ⟨by omega, ?_⟩
    have hlt : ((x.num.ediv (x.den : Int) : Int) : Rat) < 100 := by linarith
    have : x.num.ediv (x.den : Int) < 100 := by exact_mod_cast hlt
    omega

theorem mkRat_q100_eq (q : Rat) : mkRat (q.num * 100) q.den = 100 * q := by
  rw [Rat.mkRat_eq_div]
  push_cast
  rw [mul_comm ((q.num : Rat)) (100 : Rat), mul_div_assoc, Rat.num_div_den]

/-- Python round(·, 2) keeps values of the unit interval inside it. -/
theorem round2_bounds (q : Rat) (h0 : 0 ≤ q) (h1 : q ≤ 1) :
    0 ≤ round2 q ∧ round2 q ≤ 1 := by
  rw [round2]
  have hx0 : (0 : Rat) ≤ mkRat (q.num * 100) q.den := by
    rw [mkRat_q100_eq]
    linarith
  have hx100 : mkRat (q.num * 100) q.den ≤ 100 := by
    rw [mkRat_q100_eq]
    linarith
  obtain ⟨hm0, hm100⟩ := roundHalfEven_bounds _ hx0 hx100
  rw [Rat.mkRat_eq_div]
  constructor
  · positivity
  · rw [div_le_one (by norm_num)]
    exact_mod_cast hm100

/-- The confidence of the rule engine in closed form, with its bounds. -/
theorem confOf_spec (v : List Json) :
    confOf v =
      round2 (max (1 - 0.35 * ((v.filter (fun j => statusStr j == "FAIL")).length : Rat)
        - 0.15 * ((v.filter (fun j => statusStr j == "WARN")).length : Rat)) 0) ∧
    0 ≤ confOf v ∧ confOf v ≤ 1 := by
  have harg : v.foldl confStep 1 =
      1 - 0.35 * ((v.filter (fun j => statusStr j == "FAIL")).length : Rat)
        - 0.15 * ((v.filter (fun j => statusStr j == "WARN")).length : Rat) :=
    foldl_confStep v 1
  refine ⟨by rw [confOf, harg], ?_⟩
  rw [confOf]
  have h0 : 0 ≤ max (v.foldl confStep 1) 0 := le_max_right _ _
  have h1 : max (v.foldl confStep 1) 0 ≤ 1 := by
    rw [harg]
    have hF : (0 : Rat) ≤ ((v.filter (fun j => statusStr j == "FAIL")).length : Rat) := by
      positivity
    have hW : (0 : Rat) ≤ ((v.filter (fun j => statusStr j == "WARN")).length : Rat) := by
      positivity
    apply max_le
    · nlinarith
    · norm_num
  exact round2_bounds _ h0 h1

/-- C4: for every FieldSet the rule-engine confidence equals 1 minus 0.35
per FAIL finding and 0.15 per WARN finding, clamped below at 0 (it can
never exceed 1) and rounded to two decimals, so it stays in the unit
interval; and the all-null FieldSet yields exactly the FAIL on rule 1 and
the six WARNs of rules 2-7, confidence 0.00 and overall status FAIL. -/
theorem claim_C4 :
    (∀ fs : FieldSet,
      (apply_iec_rules fs).confidence =
        round2 (max (1 - 0.35 *
            (((apply_iec_rules fs).validation.filter
              (fun j => statusStr j == "FAIL")).length : Rat)
          - 0.15 *
            (((apply_iec_rules fs).validation.filter
              (fun j => statusStr j == "WARN")).length : Rat)) 0) ∧
      0 ≤ (apply_iec_rules fs).confidence ∧ (apply_iec_rules fs).confidence ≤ 1) ∧
    (apply_iec_rules all_null_fieldset).validation.map (fun j => (fieldStr j, statusStr j)) =
      [("standard", "FAIL"), ("voltage_kv", "WARN"), ("conductor_material", "WARN"),
       ("conductor_class", "WARN"), ("csa_mm2", "WARN"), ("insulation_material", "WARN"),
       ("insulation_thickness_mm", "WARN")] ∧
    (apply_iec_rules all_null_fieldset).confidence = 0 ∧
    (apply_iec_rules all_null_fieldset).overall = "FAIL" := by
  refine ⟨fun fs => confOf_spec _, by rfl, by decide, by rfl⟩

/-! ### The Response Parser claims -/

theorem first_parsed_eq_findSome (bs : List (List Char)) :
    first_parsed bs = bs.findSome? qualif := by
  induction bs with
  | nil => rfl
  | cons b bs ih =>
    rw [List.findSome?_cons]
    cases h : jsonLoads b with
    | none => simp [first_parsed, qualif, h, ih]
    | some p =>
      by_cases hk : (hasKeyB p "fields" || hasKeyB p "validation") = true
      · simp [first_parsed, qualif, h, hk]
      · simp [first_parsed, qualif, h, hk, ih]

/-- A completion with two brace blocks; only the second parses. -/
def c5demo : String := "noise \x7bnot json\x7d more \x7b\"fields\": null\x7d end"

/-- C5: extract_json strips fences, collects the lazy brace blocks, scans
them from the last backward and returns the first that parses with a
"fields" or "validation" key; on the demo completion whose first block is
not valid structured data it returns the second block's content. -/
theorem claim_C5 :
    (∀ t : String,
      extract_json t = ((findBlocks (stripFences t.toList)).reverse).findSome? qualif) ∧
    findBlocks (stripFences c5demo.toList) =
      ["\x7bnot json\x7d".toList, "\x7b\"fields\": null\x7d".toList] ∧
    jsonLoads ("\x7bnot json\x7d".toList) = none ∧
    extract_json c5demo = some (Json.obj [("fields", Json.null)]) := by
  refine ⟨fun t => first_parsed_eq_findSome _, by rfl, by rfl, by rfl⟩

/-- C6: the pipeline is not exception-free.  The completion consisting of
the single block with a null "fields" entry parses, is taken as the AI
branch, and apply_iec_rules then subscripts a non-dict: in the source this
raises TypeError and aborts validate_cable_design. -/
theorem claim_C6 :
    validate_cable_design "cable" "\x7b\"fields\": null\x7d" =
      Except.error "TypeError: fields is not a dict" := by rfl

/-! ### The Fallback Extractor claims -/

/-- An input with the dual rating above 1 kV and the LV standard named. -/
def c7input : String := "IEC 60502-1, 3.6/6 kV"

/-- C7: the voltage rule gives the dual-rating pattern precedence and
takes its second (upper) number, falling back to the bare pattern, else
null; on "IEC 60502-1, 3.6/6 kV" this yields 6.0, a FAIL finding on
rule 2 and overall status FAIL. -/
theorem claim_C7 :
    (∀ t : String,
      (fallback_extract t).voltage_kv =
        (match searchDual (pyLower t.toList) with
          | some p => some p.2
          | none => searchBareKv (pyLower t.toList))) ∧
    (fallback_extract c7input).voltage_kv = some 6 ∧
    (apply_iec_rules (fallback_extract c7input)).validation.map
        (fun j => (fieldStr j, statusStr j)) =
      [("voltage_kv", "FAIL"), ("conductor_material", "WARN"), ("conductor_class", "WARN"),
       ("csa_mm2", "WARN"), ("insulation_material", "WARN"),
       ("insulation_thickness_mm", "WARN")] ∧
    (apply_iec_rules (fallback_extract c7input)).overall = "FAIL" := by
  refine ⟨fun t => rfl, by rfl, by rfl, by rfl⟩

/-- The fully specified example input of the specification. -/
def c8input : String := "IEC 60502-1, 0.6/1 kV, Cu, Class 2, 10 mm², PVC, tᵢ = 1.0 mm"

/-- C8: the fully specified example extracts all seven fields and passes
the rule engine with no findings, overall PASS and confidence 1.00. -/
theorem claim_C8 :
    fallback_extract c8input =
      { standard := some "IEC 60502-1", voltage_kv := some 1,
        conductor_material := some "Cu", conductor_class := some "Class 2",
        csa_mm2 := some 10, insulation_material := some "PVC",
        insulation_thickness_mm := some 1 } ∧
    (apply_iec_rules (fallback_extract c8input)).validation = [] ∧
    (apply_iec_rules (fallback_extract c8input)).overall = "PASS" ∧
    (apply_iec_rules (fallback_extract c8input)).confidence = 1 := by
  refine ⟨by rfl, by rfl, by rfl, by decide⟩

/-- C9: when no number is preceded by an insulation keyword, the thickness
is taken from a bare "N mm" occurrence only when the whole input has
exactly one such occurrence, and is left null otherwise. -/
theorem claim_C9 (t : String) (h : searchThick (pyLower t.toList) = none) :
    (fallback_extract t).insulation_thickness_mm =
      (match findallMm (pyLower t.toList) with
        | [q] => some q
        | _ => none) := by
  show (match searchThick (pyLower t.toList) with
        | some q => some q
        | none =>
          match findallMm (pyLower t.toList) with
          | [q] => some q
          | _ => none) =
      (match findallMm (pyLower t.toList) with
        | [q] => some q
        | _ => none)
  rw [h]

theorem claim_C9_witness :
    (fallback_extract "2 mm spacer 3 mm").insulation_thickness_mm =
      (match findallMm (pyLower "2 mm spacer 3 mm".toList) with
        | [q] => some q
        | _ => none) :=
  claim_C9 "2 mm spacer 3 mm" rfl

/-! ### Consumption lemmas for the json.loads model

The pipeline invariant of C2 rests on one structural fact: a candidate
block holds exactly one closing brace, and every object node of a parsed
value consumes a closing brace, so a parsed block is a flat object and the
value under its "fields" key is never a dict. -/

theorem skipWs_decomp (cs : List Char) : ∃ pre, cs = pre ++ skipWs cs :=
  ⟨cs.takeWhile isJsonWs, (List.takeWhile_append_dropWhile isJsonWs cs).symm⟩

theorem takeHex4_decomp (cs : List Char) (code : Nat) (rest : List Char)
    (h : takeHex4 cs = some (code, rest)) : ∃ pre, cs = pre ++ rest := by
  rcases cs with _ | ⟨a, _ | ⟨b, _ | ⟨c, _ | ⟨d, r⟩⟩⟩⟩
  · simp [takeHex4] at h
  · simp [takeHex4] at h
  · simp [takeHex4] at h
  · simp [takeHex4] at h
  · rw [takeHex4] at h
    split at h
    · exact absurd h (by simp)
    · split at h
      · exact absurd h (by simp)
      · split at h
        · exact absurd h (by simp)
        · split at h
          · exact absurd h (by simp)
          · injection h with h
            injection h with h1 h2
            subst h2
            exact ⟨[a, b, c, d], rfl⟩

theorem parseStrChars_decomp :
    ∀ n cs s rest, parseStrChars n cs = some (s, rest) → ∃ pre, cs = pre ++ rest := by
  intro n
  induction n with
  | zero => intro cs s rest h; exact absurd h (by simp [parseStrChars])
  | succ n ih =>
    intro cs s rest h
    match cs with
    | [] => exact absurd h (by simp [parseStrChars])
    | c :: r =>
      rw [parseStrChars.eq_def] at h
      simp only [] at h
      split_ifs at h with hq he hc
      · injection h with h
        injection h with h1 h2
        subst h2
        exact ⟨[c], rfl⟩
      · split at h
        · exact absurd h (by simp)
        · rename_i e rest2
          split_ifs at h with hu
          · split at h
            · rename_i code rest3 heq
              rw [Option.map_eq_some'] at h
              obtain ⟨⟨s', r'⟩, hrec, hmk⟩ := h
              obtain ⟨pre0, hpre0⟩ := takeHex4_decomp rest2 code rest3 heq
              obtain ⟨pre, hpre⟩ := ih rest3 s' r' hrec
              injection hmk with h1 h2
              subst h2
              refine ⟨c :: e :: (pre0 ++ pre), ?_⟩
              simp [hpre0, hpre]
            · exact absurd h (by simp)
          · split at h
            · rw [Option.map_eq_some'] at h
              obtain ⟨⟨s', r'⟩, hrec, hmk⟩ := h
              obtain ⟨pre, hpre⟩ := ih rest2 s' r' hrec
              injection hmk with h1 h2
              subst h2
              exact ⟨c :: e :: pre, by simp [hpre]⟩
            · exact absurd h (by simp)
      · rw [Option.map_eq_some'] at h
        obtain ⟨⟨s', r'⟩, hrec, hmk⟩ := h
        obtain ⟨pre, hpre⟩ := ih r s' r' hrec
        injection hmk with h1 h2
        subst h2
        exact ⟨c :: pre, by simp [hpre]⟩

theorem parseIntDigits_decomp (cs : List Char) (ds : List Char) (rest : List Char)
    (h : parseIntDigits cs = some (ds, rest)) : ∃ pre, cs = pre ++ rest := by
  match cs with
  | [] => exact absurd h (by simp [parseIntDigits])
  | c :: r =>
    rw [parseIntDigits] at h
    split_ifs at h with h0 hd
    · injection h with h
      injection h with h1 h2
      subst h2
      exact ⟨[c], rfl⟩
    · injection h with h
      injection h with h1 h2
      subst h2
      refine ⟨c :: r.takeWhile Char.isDigit, ?_⟩
      rw [List.cons_append, List.takeWhile_append_dropWhile]

theorem parseFrac_decomp (cs : List Char) : ∃ pre, cs = pre ++ (parseFrac cs).2.2 := by
  unfold parseFrac
  split
  · split_ifs with hd
    · rename_i c r
      refine ⟨'.' :: c :: r.takeWhile Char.isDigit, ?_⟩
      simp [List.takeWhile_append_dropWhile]
    · exact ⟨[], rfl⟩
  · exact ⟨[], rfl⟩

theorem parseExpDigits_decomp (sgn : Bool) (orig rest2 : List Char)
    (horig : ∃ p0, orig = p0 ++ rest2) :
    ∃ pre, orig = pre ++ (parseExpDigits sgn orig rest2).2 := by
  obtain ⟨p0, hp⟩ := horig
  unfold parseExpDigits
  split
  · rename_i c tail
    split_ifs with hd
    · refine ⟨p0 ++ (c :: tail).takeWhile Char.isDigit, ?_⟩
      show orig = p0 ++ (c :: tail).takeWhile Char.isDigit ++ (c :: tail).dropWhile Char.isDigit
      rw [List.append_assoc, List.takeWhile_append_dropWhile]
      exact hp
    · exact ⟨[], rfl⟩
  · exact ⟨[], rfl⟩

theorem parseExp_decomp (cs : List Char) : ∃ pre, cs = pre ++ (parseExp cs).2 := by
  unfold parseExp
  split
  · rename_i e rest
    split_ifs with he
    · split
      · rename_i r
        exact parseExpDigits_decomp false _ r ⟨[e, '+'], rfl⟩
      · rename_i r
        exact parseExpDigits_decomp true _ r ⟨[e, '-'], rfl⟩
      · exact parseExpDigits_decomp false _ rest ⟨[e], rfl⟩
    · exact ⟨[], rfl⟩
  · exact ⟨[], rfl⟩

theorem numSign_decomp (cs : List Char) : ∃ pre, cs = pre ++ (numSign cs).2 := by
  unfold numSign
  split
  · exact ⟨['-'], rfl⟩
  · exact ⟨[], rfl⟩

theorem parseNumber_decomp (cs : List Char) (q : Rat) (rest : List Char)
    (h : parseNumber cs = some (q, rest)) : ∃ pre, cs = pre ++ rest := by
  unfold parseNumber at h
  obtain ⟨p0, hp0⟩ := numSign_decomp cs
  cases hi : parseIntDigits (numSign cs).2 with
  | none => rw [hi] at h; exact absurd h (by simp)
  | some idr =>
    obtain ⟨ids, cs2⟩ := idr
    rw [hi] at h
    obtain ⟨p1, hp1⟩ := parseIntDigits_decomp _ _ _ hi
    obtain ⟨p2, hp2⟩ := parseFrac_decomp cs2
    obtain ⟨p3, hp3⟩ := parseExp_decomp (parseFrac cs2).2.2
    have hrest : rest = (parseExp (parseFrac cs2).2.2).2 := by
      injection h with h
      injection h with h1 h2
      exact h2.symm
    refine ⟨p0 ++ p1 ++ p2 ++ p3, ?_⟩
    rw [hrest]
    calc cs = p0 ++ (numSign cs).2 := hp0
      _ = p0 ++ (p1 ++ cs2) := by rw [← hp1]
      _ = p0 ++ (p1 ++ (p2 ++ (parseFrac cs2).2.2)) := by rw [← hp2]
      _ = p0 ++ (p1 ++ (p2 ++ (p3 ++ (parseExp (parseFrac cs2).2.2).2))) := by rw [← hp3]
      _ = p0 ++ p1 ++ p2 ++ p3 ++ (parseExp (parseFrac cs2).2.2).2 := by
          simp [List.append_assoc]

/-- Closing braces in a character list. -/
def cnt (l : List Char) : Nat := l.count '\x7d'

/-- Object count already accumulated by a parser state. -/
def accCnt : PIn → Nat
  | PIn.members _ acc => objCountKvs acc
  | PIn.elems _ acc => objCountArr acc
  | _ => 0

/-- States that can only return an object. -/
def objMode : PIn → Bool
  | PIn.objBody _ => true
  | PIn.members _ _ => true
  | _ => false

theorem cnt_append (a b : List Char) : cnt (a ++ b) = cnt a + cnt b :=
  List.count_append _ _ _

theorem objCountKvs_append (a b : List (String × Json)) :
    objCountKvs (a ++ b) = objCountKvs a + objCountKvs b := by
  induction a with
  | nil => simp [objCountKvs]
  | cons p a ih => simp [objCountKvs, ih]; omega

theorem objCountArr_append (a b : List Json) :
    objCountArr (a ++ b) = objCountArr a + objCountArr b := by
  induction a with
  | nil => simp [objCountArr]
  | cons x a ih => simp [objCountArr, ih]; omega

set_option maxHeartbeats 2000000 in
/-- Every object node of a parsed value consumes a closing brace: if a
parse from state inp succeeds with value v and remainder rest, the
consumed prefix holds at least as many closing braces as v holds object
nodes beyond those already accumulated. -/
theorem parse_consume :
    ∀ n inp v rest, parseStep n inp = some (v, rest) →
      ∃ pre, PIn.cs inp = pre ++ rest ∧ objCount v ≤ cnt pre + accCnt inp ∧
        (objMode inp = true → ∃ kvs, v = Json.obj kvs) := by
  intro n
  induction n with
  | zero => intro inp v rest h; exact absurd h (by simp [parseStep])
  | succ n ih =>
    intro inp v rest h
    cases inp with
    | val cs =>
      simp only [parseStep] at h
      simp only [PIn.cs, accCnt, objMode]
      obtain ⟨w, hw⟩ := skipWs_decomp cs
      split at h
      · rename_i rest' heq
        obtain ⟨pre', hpre', hcnt', _⟩ := ih _ _ _ h
        simp only [PIn.cs, accCnt] at hpre' hcnt'
        refine ⟨w ++ '\x7b' :: pre', ?_, ?_, by simp⟩
        · rw [hw, heq, hpre']
          simp
        · have hmono : cnt pre' ≤ cnt (w ++ '\x7b' :: pre') := by
            simp [cnt, List.count_append, List.count_cons]
          omega
      · rename_i rest' heq
        obtain ⟨pre', hpre', hcnt', _⟩ := ih _ _ _ h
        simp only [PIn.cs, accCnt] at hpre' hcnt'
        refine ⟨w ++ '[' :: pre', ?_, ?_, by simp⟩
        · rw [hw, heq, hpre']
          simp
        · have hmono : cnt pre' ≤ cnt (w ++ '[' :: pre') := by
            simp [cnt, List.count_append, List.count_cons]
          omega
      · rename_i rest' heq
        rw [Option.map_eq_some'] at h
        obtain ⟨⟨s', r'⟩, hrec, hmk⟩ := h
        obtain ⟨pre', hpre'⟩ := parseStrChars_decomp _ _ _ _ hrec
        injection hmk with h1 h2
        subst h2
        subst h1
        refine ⟨w ++ '"' :: pre', ?_, ?_, by simp⟩
        · rw [hw, heq, hpre']
          simp
        · simp [objCount]
      · rename_i r' heq
        injection h with h
        injection h with h1 h2
        subst h2
        subst h1
        refine ⟨w ++ ['t', 'r', 'u', 'e'], ?_, ?_, by simp⟩
        · rw [hw, heq]
          simp
        · simp [objCount]
      · rename_i r' heq
        injection h with h
        injection h with h1 h2
        subst h2
        subst h1
        refine ⟨w ++ ['f', 'a', 'l', 's', 'e'], ?_, ?_, by simp⟩
        · rw [hw, heq]
          simp
        · simp [objCount]
      · rename_i r' heq
        injection h with h
        injection h with h1 h2
        subst h2
        subst h1
        refine ⟨w ++ ['n', 'u', 'l', 'l'], ?_, ?_, by simp⟩
        · rw [hw, heq]
          simp
        · simp [objCount]
      · rw [Option.map_eq_some'] at h
        obtain ⟨⟨q, r'⟩, hrec, hmk⟩ := h
        obtain ⟨pre', hpre'⟩ := parseNumber_decomp _ _ _ hrec
        injection hmk with h1 h2
        subst h2
        subst h1
        refine ⟨w ++ pre', ?_, ?_, by simp⟩
        · rw [hw, hpre']
          simp
        · simp [objCount]
    | objBody cs =>
      simp only [parseStep] at h
      simp only [PIn.cs, accCnt, objMode]
      obtain ⟨w, hw⟩ := skipWs_decomp cs
      split at h
      · rename_i rest' heq
        injection h with h
        injection h with h1 h2
        subst h2
        refine ⟨w ++ ['\x7d'], ?_, ?_, fun _ => ⟨[], h1.symm⟩⟩
        · rw [hw, heq]
          simp
        · subst h1
          have hone : 1 ≤ cnt (w ++ ['\x7d']) := by
            simp [cnt, List.count_append, List.count_cons]
          simp only [objCount, objCountKvs]
          omega
      · obtain ⟨pre', hpre', hcnt', hobj'⟩ := ih _ _ _ h
        simp only [PIn.cs, accCnt, objCountKvs] at hpre' hcnt'
        refine ⟨w ++ pre', ?_, ?_, fun _ => hobj' (by simp [objMode])⟩
        · rw [hw, hpre']
          simp
        · have hmono : cnt pre' ≤ cnt (w ++ pre') := by
            simp [cnt, List.count_append]
          omega
    | members cs acc =>
      simp only [parseStep] at h
      simp only [PIn.cs, accCnt, objMode]
      split at h
      · rename_i rest' heq
        split at h
        · exact absurd h (by simp)
        · rename_i k r1 heqS
          split at h
          · rename_i r2 heq2
            split at h
            · exact absurd h (by simp)
            · rename_i v0 r3 heqV
              obtain ⟨prev, hprev, hcntv, _⟩ := ih _ _ _ heqV
              simp only [PIn.cs, accCnt] at hprev hcntv
              obtain ⟨sPre, hsPre⟩ := parseStrChars_decomp _ _ _ _ heqS
              obtain ⟨w1, hw1⟩ := skipWs_decomp r1
              obtain ⟨w3, hw3⟩ := skipWs_decomp r3
              split at h
              · rename_i r4 heq4
                obtain ⟨w4, hw4⟩ := skipWs_decomp r4
                obtain ⟨pre', hpre', hcnt', hobj'⟩ := ih _ _ _ h
                simp only [PIn.cs, accCnt] at hpre' hcnt'
                rw [objCountKvs_append] at hcnt'
                simp only [objCountKvs] at hcnt'
                refine ⟨'"' :: sPre ++ w1 ++ ':' :: prev ++ w3 ++ ',' :: w4 ++ pre', ?_, ?_,
                  fun _ => hobj' (by simp [objMode])⟩
                · rw [hsPre, hw1, heq2, hprev, hw3, heq4, hw4, hpre']
                  simp
                · have hmono : cnt prev + cnt pre' ≤
                      cnt ('"' :: sPre ++ w1 ++ ':' :: prev ++ w3 ++ ',' :: w4 ++ pre') := by
                    simp [cnt, List.count_append, List.count_cons]
                    try omega
                  omega
              · rename_i r4 heq4
                injection h with h
                injection h with h1 h2
                subst h2
                refine ⟨'"' :: sPre ++ w1 ++ ':' :: prev ++ w3 ++ ['\x7d'], ?_, ?_,
                  fun _ => ⟨acc ++ [(String.mk k, v0)], h1.symm⟩⟩
                · rw [hsPre, hw1, heq2, hprev, hw3, heq4]
                  simp
                · subst h1
                  have hone : cnt prev + 1 ≤
                      cnt ('"' :: sPre ++ w1 ++ ':' :: prev ++ w3 ++ ['\x7d']) := by
                    simp [cnt, List.count_append, List.count_cons]
                    try omega
                  simp only [objCount, objCountKvs_append, objCountKvs]
                  omega
              · exact absurd h (by simp)
          · exact absurd h (by simp)
      · exact absurd h (by simp)
    | arrBody cs =>
      simp only [parseStep] at h
      simp only [PIn.cs, accCnt, objMode]
      obtain ⟨w, hw⟩ := skipWs_decomp cs
      split at h
      · rename_i rest' heq
        injection h with h
        injection h with h1 h2
        subst h2
        subst h1
        refine ⟨w ++ [']'], ?_, ?_, by simp⟩
        · rw [hw, heq]
          simp
        · simp [objCount, objCountArr]
      · obtain ⟨pre', hpre', hcnt', _⟩ := ih _ _ _ h
        simp only [PIn.cs, accCnt, objCountArr] at hpre' hcnt'
        refine ⟨w ++ pre', ?_, ?_, by simp⟩
        · rw [hw, hpre']
          simp
        · have hmono : cnt pre' ≤ cnt (w ++ pre') := by
            simp [cnt, List.count_append]
          omega
    | elems cs acc =>
      simp only [parseStep] at h
      simp only [PIn.cs, accCnt, objMode]
      split at h
      · exact absurd h (by simp)
      · rename_i v0 r1 heqV
        obtain ⟨prev, hprev, hcntv, _⟩ := ih _ _ _ heqV
        simp only [PIn.cs, accCnt] at hprev hcntv
        obtain ⟨w1, hw1⟩ := skipWs_decomp r1
        split at h
        · rename_i r2 heq2
          obtain ⟨pre', hpre', hcnt', _⟩ := ih _ _ _ h
          simp only [PIn.cs, accCnt] at hpre' hcnt'
          rw [objCountArr_append] at hcnt'
          simp only [objCountArr] at hcnt'
          refine ⟨prev ++ w1 ++ ',' :: pre', ?_, ?_, by simp⟩
          · rw [hprev, hw1, heq2, hpre']
            simp
          · have hmono : cnt prev + cnt pre' ≤ cnt (prev ++ w1 ++ ',' :: pre') := by
              simp [cnt, List.count_append, List.count_cons]
            omega
        · rename_i r2 heq2
          injection h with h
          injection h with h1 h2
          subst h2
          subst h1
          refine ⟨prev ++ w1 ++ [']'], ?_, ?_, by simp⟩
          · rw [hprev, hw1, heq2]
            simp
          · have hmono : cnt prev ≤ cnt (prev ++ w1 ++ [']']) := by
              simp [cnt, List.count_append, List.count_cons]
            simp only [objCount, objCountArr_append, objCountArr]
            omega
        · exact absurd h (by simp)

theorem splitAtClose_spec :
    ∀ cs mid rest, splitAtClose cs = some (mid, rest) →
      cs = mid ++ '\x7d' :: rest ∧ '\x7d' ∉ mid := by
  intro cs
  induction cs with
  | nil => intro mid rest h; exact absurd h (by simp [splitAtClose])
  | cons c cs ih =>
    intro mid rest h
    rw [splitAtClose] at h
    split_ifs at h with hc
    · injection h with h
      injection h with h1 h2
      subst hc
      rw [← h1, ← h2]
      exact ⟨rfl, by simp⟩
    · rw [Option.map_eq_some'] at h
      obtain ⟨⟨m', r'⟩, hrec, hmk⟩ := h
      obtain ⟨hcs, hnot⟩ := ih m' r' hrec
      injection hmk with h1 h2
      subst h2
      rw [← h1]
      refine ⟨by rw [hcs]; simp, ?_⟩
      intro hmem
      rcases List.mem_cons.mp hmem with hh | hh
      · exact hc hh.symm
      · exact hnot hh

theorem findBlocksF_shape :
    ∀ n cs b, b ∈ findBlocksF n cs →
      ∃ mid, b = '\x7b' :: mid ++ ['\x7d'] ∧ '\x7d' ∉ mid := by
  intro n
  induction n with
  | zero => intro cs b h; simp [findBlocksF] at h
  | succ n ih =>
    intro cs b h
    cases cs with
    | nil => simp [findBlocksF] at h
    | cons c cs' =>
      rw [findBlocksF] at h
      split_ifs at h with hb
      · split at h
        · rename_i mid rest heq
          rw [List.mem_cons] at h
          rcases h with h | h
          · obtain ⟨_, hnot⟩ := splitAtClose_spec cs' mid rest heq
            exact ⟨mid, by simp [h], hnot⟩
          · exact ih rest b h
        · simp at h
      · exact ih cs' b h

theorem first_parsed_mem :
    ∀ bs p, first_parsed bs = some p → ∃ b, b ∈ bs ∧ jsonLoads b = some p := by
  intro bs
  induction bs with
  | nil => intro p h; exact absurd h (by simp [first_parsed])
  | cons b bs ih =>
    intro p h
    rw [first_parsed] at h
    split at h
    · rename_i p' heq
      split_ifs at h with hk
      · injection h with h
        subst h
        exact ⟨b, by simp, heq⟩
      · obtain ⟨b', hb', hj⟩ := ih p h
        exact ⟨b', by simp [hb'], hj⟩
    · obtain ⟨b', hb', hj⟩ := ih p h
      exact ⟨b', by simp [hb'], hj⟩

/-- A successful parse of a value starting at an opening brace yields an
object. -/
theorem parseVal_obj (n : Nat) (cs : List Char) (v : Json) (rest : List Char)
    (tl : List Char) (hsk : skipWs cs = '\x7b' :: tl)
    (h : parseStep n (PIn.val cs) = some (v, rest)) : ∃ kvs, v = Json.obj kvs := by
  cases n with
  | zero => exact absurd h (by simp [parseStep])
  | succ n =>
    simp only [parseStep] at h
    rw [hsk] at h
    obtain ⟨_, _, _, hobj⟩ := parse_consume _ _ _ _ h
    exact hobj (by simp [objMode])

/-- A parsed block with its single closing brace at the end is a flat
object: no value of any of its entries holds an object node. -/
theorem jsonLoads_flat (b : List Char) (p : Json)
    (mid : List Char) (hb : b = '\x7b' :: mid ++ ['\x7d']) (hmid : '\x7d' ∉ mid)
    (h : jsonLoads b = some p) :
    ∃ kvs, p = Json.obj kvs ∧ objCountKvs kvs = 0 := by
  rw [jsonLoads] at h
  cases hp : parseStep (3 * b.length + 8) (PIn.val b) with
  | none => rw [hp] at h; exact absurd h (by simp)
  | some vr =>
    obtain ⟨v, rest⟩ := vr
    rw [hp] at h
    change (if (skipWs rest).isEmpty = true then some v else none) = some p at h
    split_ifs at h with hws
    · injection h with h
      subst h
      obtain ⟨pre, hpre, hcount, _⟩ := parse_consume _ _ _ _ hp
      simp only [PIn.cs, accCnt] at hpre hcount
      have hskip : skipWs b = b := by
        rw [hb]
        change List.dropWhile isJsonWs ('\x7b' :: (mid ++ ['\x7d'])) =
          '\x7b' :: (mid ++ ['\x7d'])
        rw [List.dropWhile_cons]
        simp [isJsonWs]
      have hcntb : cnt b = 1 := by
        rw [hb]
        simp [cnt, List.count_append, List.count_cons, List.count_eq_zero.mpr hmid]
      have hrest0 : cnt rest = 0 := by
        rw [cnt, List.count_eq_zero]
        intro hcmem
        have hall : ∀ c ∈ rest, isJsonWs c := by
          intro c hc
          exact List.dropWhile_eq_nil_iff.mp (List.isEmpty_iff.mp hws) c hc
        have := hall _ hcmem
        simp [isJsonWs] at this
      have hpre1 : cnt pre ≤ 1 := by
        have hsplit : cnt b = cnt pre + cnt rest := by rw [hpre, cnt_append]
        omega
      obtain ⟨kvs, hk⟩ := parseVal_obj _ b v rest (mid ++ ['\x7d'])
        (by rw [hskip, hb]; simp) hp
      subst hk
      refine ⟨kvs, rfl, ?_⟩
      simp only [objCount] at hcount
      omega

/-- extract_json returns flat objects only. -/
theorem extract_json_flat (t : String) (p : Json) (h : extract_json t = some p) :
    ∃ kvs, p = Json.obj kvs ∧ objCountKvs kvs = 0 := by
  rw [extract_json] at h
  obtain ⟨b, hb, hj⟩ := first_parsed_mem _ _ h
  rw [List.mem_reverse, findBlocks] at hb
  obtain ⟨mid, hbs, hmid⟩ := findBlocksF_shape _ _ _ hb
  exact jsonLoads_flat b p mid hbs hmid hj

theorem objCount_le_of_mem :
    ∀ (kvs : List (String × Json)) (q : String × Json), q ∈ kvs →
      objCount q.2 ≤ objCountKvs kvs := by
  intro kvs
  induction kvs with
  | nil => intro q h; simp at h
  | cons p kvs ih =>
    intro q h
    rw [List.mem_cons] at h
    rcases h with h | h
    · subst h
      simp [objCountKvs]
    · have := ih q h
      simp only [objCountKvs]
      omega

theorem jget_flat (kvs : List (String × Json)) (hflat : objCountKvs kvs = 0)
    (k : String) (v : Json) (h : jget kvs k = some v) : objCount v = 0 := by
  rw [jget, Option.map_eq_some'] at h
  obtain ⟨q, hfind, hv⟩ := h
  have hmem : q ∈ kvs := List.mem_reverse.mp (List.mem_of_find?_eq_some hfind)
  have := objCount_le_of_mem kvs q hmem
  rw [hv] at this
  omega

/-- The dynamic rule engine rejects every non-dict fields value with the
TypeError of the first subscript. -/
theorem apply_iec_rules_dyn_nonobj (v : Json) (h : objCount v = 0) :
    apply_iec_rules_dyn v = Except.error "TypeError: fields is not a dict" := by
  cases v with
  | obj kvs => exact absurd h (by simp [objCount])
  | null => rfl
  | bool b => rfl
  | num q => rfl
  | str s => rfl
  | arr l => rfl

theorem apply_iec_rules_dyn_overall (j : Json) (rr : RuleResult)
    (h : apply_iec_rules_dyn j = Except.ok rr) : rr.overall = overallOf rr.validation := by
  cases j with
  | obj kvs =>
    rw [apply_iec_rules_dyn] at h
    cases hr : rules_dyn kvs with
    | error e => rw [hr] at h; exact absurd h (by simp)
    | ok v =>
      rw [hr] at h
      injection h with h
      subst h
      rfl
  | null => exact absurd h (by simp [apply_iec_rules_dyn])
  | bool b => exact absurd h (by simp [apply_iec_rules_dyn])
  | num q => exact absurd h (by simp [apply_iec_rules_dyn])
  | str s => exact absurd h (by simp [apply_iec_rules_dyn])
  | arr l => exact absurd h (by simp [apply_iec_rules_dyn])

theorem fuse_conf (q : Json × Json × Json × Json) (res : ValidationResult)
    (h : fuse q = Except.ok res) :
    res.confidence_overall = min res.ai_confidence res.rule_confidence := by
  rw [fuse] at h
  cases hR : apply_iec_rules_dyn q.1 with
  | error e => rw [hR] at h; exact absurd h (by simp)
  | ok rr =>
    simp only [hR] at h
    cases hC : confGet q.2.2.2 with
    | error e =>
      simp only [hC] at h
      exact absurd h (by simp)
    | ok aiOv =>
      simp only [hC] at h
      injection h with h
      subst h
      exact rfl

theorem statusInvariant_of (rv : List Json) (res : ValidationResult)
    (hval : res.validation = Json.arr rv) (hov : res.overall_status = overallOf rv) :
    statusInvariant res := by
  unfold statusInvariant
  rw [hval, hov]
  have h3 := overallOf_spec rv
  simpa [anyStatusB] using h3

theorem fuse_inv (q : Json × Json × Json × Json) (res : ValidationResult)
    (h : fuse q = Except.ok res) (hnt : truthy q.2.1 = false) : statusInvariant res := by
  rw [fuse] at h
  cases hR : apply_iec_rules_dyn q.1 with
  | error e => rw [hR] at h; exact absurd h (by simp)
  | ok rr =>
    simp only [hR] at h
    cases hC : confGet q.2.2.2 with
    | error e =>
      simp only [hC] at h
      exact absurd h (by simp)
    | ok aiOv =>
      simp only [hC, hnt] at h
      injection h with h
      subst h
      exact statusInvariant_of rr.validation _ rfl (apply_iec_rules_dyn_overall _ _ hR)

/-- C2: every ValidationResult the pipeline actually returns satisfies
the status invariant over its displayed findings.  The case in which the
displayed list would be oracle findings cannot return: the brace scan
yields flat objects only, so an oracle-supplied "fields" value is never a
dict and the rule engine raises before the result is assembled. -/
theorem claim_C2 (u r : String) (res : ValidationResult)
    (h : validate_cable_design u r = Except.ok res) : statusInvariant res := by
  rw [validate_cable_design] at h
  cases hE : extract_json r with
  | none =>
    simp only [chooseQuad, hE] at h
    exact fuse_inv _ _ h rfl
  | some p =>
    simp only [chooseQuad, hE] at h
    by_cases hb : (truthy p && hasKeyB p "fields") = true
    · rw [if_pos hb] at h
      exfalso
      obtain ⟨kvs, hp, hflat⟩ := extract_json_flat r p hE
      subst hp
      have hkey : (jget kvs "fields").isSome = true := by
        rw [Bool.and_eq_true] at hb
        simpa [hasKeyB] using hb.2
      obtain ⟨x, hx⟩ := Option.isSome_iff_exists.mp hkey
      have hx0 : objCount x = 0 := jget_flat kvs hflat _ _ hx
      have herr := apply_iec_rules_dyn_nonobj x hx0
      rw [fuse] at h
      simp only [jgetD, hx, Option.getD] at h
      rw [herr] at h
      exact absurd h (by simp)
    · rw [if_neg hb] at h
      exact fuse_inv _ _ h rfl

theorem claim_C2_witness : statusInvariant c2_run :=
  claim_C2 "10 mm² Cu cable" "the oracle rambled with no structure" c2_run rfl

/-- C3: the reported overall confidence is the minimum of the (defaulted)
oracle confidence and the rule-engine confidence, hence at most each. -/
theorem claim_C3 (u r : String) (res : ValidationResult)
    (h : validate_cable_design u r = Except.ok res) :
    res.confidence_overall = min res.ai_confidence res.rule_confidence ∧
    res.confidence_overall ≤ res.ai_confidence ∧
    res.confidence_overall ≤ res.rule_confidence := by
  have hm := fuse_conf (chooseQuad u r) res h
  exact ⟨hm, by rw [hm]; exact min_le_left _ _, by rw [hm]; exact min_le_right _ _⟩

theorem claim_C3_witness :
    c3_run.confidence_overall = min c3_run.ai_confidence c3_run.rule_confidence ∧
    c3_run.confidence_overall ≤ c3_run.ai_confidence ∧
    c3_run.confidence_overall ≤ c3_run.rule_confidence :=
  claim_C3 "IEC 60502-1, 0.6/1 kV, Cu" "plain text answer" c3_run rfl

end CableSpec
